import Mathlib

/-!
Verification development for the Scholar venue-analysis content script.

The script has four parts that carry all the logic, and each is embedded
here as an executable Lean definition translated clause by clause from the
JavaScript source (`content.js`):

* `normalizeVenue` — the venue classification pipeline (preprocessing
  replaces, the ordered rule table, the workshop pass, the relaxed
  catch-all pass and the fallback stage);
* `extractVenueData` — per-record extraction and aggregation into sorted
  venue counts;
* `loadLoop` / `loadAllPublications` / `analyzeAllVenues` — the bounded
  pagination loop and the orchestrator, over an abstract page source;
* `onMessage` — the message listener with its reentrancy flag.

Strings are modelled as `List Char`; each JavaScript regular-expression
test or replace used by the script is implemented as a dedicated function
with the same matching semantics (leftmost match, first-match-only
replaces, case-insensitive where the source uses the `i` flag).
-/

set_option maxRecDepth 16000

/-! ### Character classes (JavaScript `\s`, `\d`, `\w`, `toLowerCase`) -/

def isWsChar (c : Char) : Bool :=
  c == ' ' || c == '\t' || c == '\n' || c == '\r' ||
  c.toNat == 11 || c.toNat == 12 || c.toNat == 160 ||
  c.toNat == 0x2028 || c.toNat == 0x2029 || c.toNat == 0xfeff

def isDigitChar (c : Char) : Bool :=
  '0' ≤ c && c ≤ '9'

def isWordChar (c : Char) : Bool :=
  ('a' ≤ c && c ≤ 'z') || ('A' ≤ c && c ≤ 'Z') || isDigitChar c || c == '_'

def lowerChar (c : Char) : Char :=
  if 'A' ≤ c ∧ c ≤ 'Z' then Char.ofNat (c.toNat + 32) else c

def lowerList (s : List Char) : List Char :=
  s.map lowerChar

def trimChars (s : List Char) : List Char :=
  ((s.dropWhile isWsChar).reverse.dropWhile isWsChar).reverse

/-! ### Substring matching combinators (for the regex `test` calls) -/

/-- Case-sensitive prefix test on character lists. -/
def isPfx : List Char → List Char → Bool
  | [], _ => true
  | _ :: _, [] => false
  | c :: p, x :: t => c == x && isPfx p t

/-- `containsL h p` — `p` occurs somewhere in `h` (a bare literal regex alternative). -/
def containsL : List Char → List Char → Bool
  | [], p => isPfx p []
  | x :: t, p => isPfx p (x :: t) || containsL t p

/-- Remainder of `h` after the first occurrence of `p`, if any. -/
def dropAfter : List Char → List Char → Option (List Char)
  | [], p => if isPfx p [] then some [] else none
  | x :: t, p => if isPfx p (x :: t) then some ((x :: t).drop p.length) else dropAfter t p

/-- Ordered-occurrence test: the literals appear in order with arbitrary
gaps between them (a `a.*?b.*?c` regex alternative). -/
def seqL : List Char → List (List Char) → Bool
  | _, [] => true
  | h, p :: ps =>
    match dropAfter h p with
    | some r => seqL r ps
    | none => false

def hasS (h : List Char) (p : String) : Bool :=
  containsL h p.data

def seqS (h : List Char) (ps : List String) : Bool :=
  seqL h (ps.map String.data)

/-- Remainder after the first run of four consecutive digits (regex `\d{4}` as
the head of an alternative). -/
def findD4 : List Char → Option (List Char)
  | a :: b :: c :: d :: rest =>
    if isDigitChar a && isDigitChar b && isDigitChar c && isDigitChar d then some rest
    else findD4 (b :: c :: d :: rest)
  | _ => none

/-- `\d{4}.*?p₁.*?p₂...` alternative. -/
def d4SeqS (h : List Char) (ps : List String) : Bool :=
  match findD4 h with
  | some r => seqS r ps
  | none => false

/-- `p\s` alternative: the literal followed immediately by a whitespace char. -/
def litThenWs : List Char → List Char → Bool
  | [], _ => false
  | x :: t, p =>
    (isPfx p (x :: t) &&
      (match (x :: t).drop p.length with
       | y :: _ => isWsChar y
       | [] => false)) || litThenWs t p

def hasLitWs (h : List Char) (p : String) : Bool :=
  litThenWs h p.data

/-- `p\b` alternative: the literal followed by a word boundary (non-word
character or end of input). -/
def litThenNwb : List Char → List Char → Bool
  | [], p => isPfx p []
  | x :: t, p =>
    (isPfx p (x :: t) &&
      (match (x :: t).drop p.length with
       | y :: _ => !isWordChar y
       | [] => true)) || litThenNwb t p

def hasLitNwb (h : List Char) (p : String) : Bool :=
  litThenNwb h p.data

/-- `p₁.p₂` alternative: first literal, one arbitrary character, second literal. -/
def litAnyLit : List Char → List Char → List Char → Bool
  | [], _, _ => false
  | x :: t, p1, p2 =>
    (isPfx p1 (x :: t) &&
      (match (x :: t).drop p1.length with
       | _ :: r => isPfx p2 r
       | [] => false)) || litAnyLit t p1 p2

def hasLitAnyLit (h : List Char) (p1 p2 : String) : Bool :=
  litAnyLit h p1.data p2.data

/-- Whole-string match `^p$`. -/
def eqS (h : List Char) (p : String) : Bool :=
  h == p.data

/-- Suffix match `p$`. -/
def endsWithS (h : List Char) (p : String) : Bool :=
  isPfx p.data.reverse h.reverse

/-- Anchored `^p\s` alternative. -/
def startsWithLitWs (h : List Char) (p : String) : Bool :=
  isPfx p.data h &&
    (match h.drop p.data.length with
     | y :: _ => isWsChar y
     | [] => false)

/-- Anchored `^\s*p$` alternative. -/
def wsStarThenExact (h : List Char) (p : String) : Bool :=
  (h.dropWhile isWsChar) == p.data

/-! ### Preprocessing replaces of `normalizeVenue` (source lines 430-450) -/

/-- `venueText.replace(/…$/, "")` — drop one trailing ellipsis character. -/
def dropEllipsis (s : List Char) : List Char :=
  match s.reverse with
  | c :: r => if c == '…' then r.reverse else s
  | [] => s

/-- Match of `\s*,\s*\d{4}(\s|$)` starting exactly at the head of `h`:
returns the remainder after the matched region. -/
def yearCommaAt (h : List Char) : Option (List Char) :=
  match h.dropWhile isWsChar with
  | c :: t =>
    if c == ',' then
      match t.dropWhile isWsChar with
      | a :: b :: c2 :: d :: rest =>
        if isDigitChar a && isDigitChar b && isDigitChar c2 && isDigitChar d then
          match rest with
          | [] => some []
          | x :: rest2 => if isWsChar x then some rest2 else none
        else none
      | _ => none
    else none
  | [] => none

/-- `replace(/\s*,\s*\d{4}(\s|$)/, " ")` — first match only, leftmost. -/
def replaceYearComma : List Char → List Char
  | [] => []
  | c :: t =>
    match yearCommaAt (c :: t) with
    | some rest => ' ' :: rest
    | none => c :: replaceYearComma t

/-- `replace(/\s*\d{4}\s*$/, "")` — a four-digit run at the end of the
string, with surrounding whitespace, is removed. -/
def stripYearEnd (s : List Char) : List Char :=
  let r := s.reverse
  match r.dropWhile isWsChar with
  | a :: b :: c :: d :: rest =>
    if isDigitChar a && isDigitChar b && isDigitChar c && isDigitChar d then
      (rest.dropWhile isWsChar).reverse
    else s
  | _ => s

/-- `replace(/^\d{4}\s+/, "")` — four leading digits followed by whitespace. -/
def stripYearStart (s : List Char) : List Char :=
  match s with
  | a :: b :: c :: d :: rest =>
    if isDigitChar a && isDigitChar b && isDigitChar c && isDigitChar d then
      match rest with
      | x :: _ => if isWsChar x then rest.dropWhile isWsChar else s
      | [] => s
    else s
  | _ => s

/-- Match of `\s*,\s*\d+(\s*\(\d+\))?(\s|$)` starting at the head of `h`. -/
def volIssueAt (h : List Char) : Option (List Char) :=
  match h.dropWhile isWsChar with
  | c :: t =>
    if c == ',' then
      let t1 := t.dropWhile isWsChar
      let ds := t1.takeWhile isDigitChar
      let r := t1.dropWhile isDigitChar
      if ds.isEmpty then none
      else
        let withGroup : Option (List Char) :=
          match r.dropWhile isWsChar with
          | p :: gi =>
            if p == '(' then
              let ds2 := gi.takeWhile isDigitChar
              let r2 := gi.dropWhile isDigitChar
              if ds2.isEmpty then none
              else
                match r2 with
                | q :: rest3 =>
                  if q == ')' then
                    match rest3 with
                    | [] => some []
                    | x :: rest4 => if isWsChar x then some rest4 else none
                  else none
                | [] => none
            else none
          | [] => none
        match withGroup with
        | some res => some res
        | none =>
          match r with
          | [] => some []
          | x :: r2 => if isWsChar x then some r2 else none
    else none
  | [] => none

/-- `replace(/\s*,\s*\d+(\s*\(\d+\))?(\s|$)/, " ")` — first match only. -/
def replaceVolIssue : List Char → List Char
  | [] => []
  | c :: t =>
    match volIssueAt (c :: t) with
    | some rest => ' ' :: rest
    | none => c :: replaceVolIssue t

def isPChar (c : Char) : Bool :=
  c == 'p' || c == 'P'

def isDigDash (c : Char) : Bool :=
  isDigitChar c || c == '-'

/-- Match of `\s*,\s*pp?\s*[\d-]+` (case-insensitive) at the head of `h`. -/
def ppAt (h : List Char) : Option (List Char) :=
  match h.dropWhile isWsChar with
  | c :: t =>
    if c == ',' then
      match t.dropWhile isWsChar with
      | c1 :: t2 =>
        if isPChar c1 then
          let double : Option (List Char) :=
            match t2 with
            | c2 :: t3 =>
              if isPChar c2 then
                let s2 := t3.dropWhile isWsChar
                if (s2.takeWhile isDigDash).isEmpty then none
                else some (s2.dropWhile isDigDash)
              else none
            | [] => none
          match double with
          | some res => some res
          | none =>
            let s1 := t2.dropWhile isWsChar
            if (s1.takeWhile isDigDash).isEmpty then none
            else some (s1.dropWhile isDigDash)
        else none
      | [] => none
    else none
  | [] => none

/-- `replace(/\s*,\s*pp?\s*[\d-]+/i, "")` — first match only. -/
def removePagesPP : List Char → List Char
  | [] => []
  | c :: t =>
    match ppAt (c :: t) with
    | some rest => rest
    | none => c :: removePagesPP t

/-- Match of `\s*,\s*\d+-\d+\s*$` starting at the head of `h` (end-anchored). -/
def pageRangeAt (h : List Char) : Bool :=
  match h.dropWhile isWsChar with
  | c :: t =>
    if c == ',' then
      let t1 := t.dropWhile isWsChar
      let ds1 := t1.takeWhile isDigitChar
      let r1 := t1.dropWhile isDigitChar
      if ds1.isEmpty then false
      else
        match r1 with
        | m :: t2 =>
          if m == '-' then
            let ds2 := t2.takeWhile isDigitChar
            let r2 := t2.dropWhile isDigitChar
            if ds2.isEmpty then false else r2.all isWsChar
          else false
        | [] => false
    else false
  | [] => false

/-- `replace(/\s*,\s*\d+-\d+\s*$/, "")` — removes the end-anchored match. -/
def removePageRange : List Char → List Char
  | [] => []
  | c :: t =>
    if pageRangeAt (c :: t) then []
    else c :: removePageRange t

/-- Case-insensitive literal prefix drop: the pattern is given lower-case. -/
def dropCI : List Char → List Char → Option (List Char)
  | [], h => some h
  | _ :: _, [] => none
  | c :: p, x :: t => if lowerChar x == c then dropCI p t else none

/-- `replace(/^(proceedings of the |proceedings of |proceedings )/i, "")`. -/
def dropProceedingsPfx (s : List Char) : List Char :=
  match dropCI ("proceedings of the ").data s with
  | some r => r
  | none =>
    match dropCI ("proceedings of ").data s with
    | some r => r
    | none =>
      match dropCI ("proceedings ").data s with
      | some r => r
      | none => s

mutual

/-- `replace(/\s+/g, " ")` — collapse every whitespace run to one space. -/
def collapseWs : List Char → List Char
  | [] => []
  | c :: t => if isWsChar c then ' ' :: skipWsThen t else c :: collapseWs t

def skipWsThen : List Char → List Char
  | [] => []
  | c :: t => if isWsChar c then skipWsThen t else c :: collapseWs t

end

/-- The whole preprocessing pipeline of `normalizeVenue`, in source order. -/
def cleanVenueText (s : List Char) : List Char :=
  let s1 := trimChars (dropEllipsis s)
  let s2 := replaceYearComma s1
  let s3 := stripYearEnd s2
  let s4 := stripYearStart s3
  let s5 := replaceVolIssue s4
  let s6 := removePagesPP s5
  let s7 := removePageRange s6
  let s8 := dropProceedingsPfx s7
  trimChars (collapseWs s8)

/-- `/workshop|ws\b/i.test(venueText)` — the workshop flag (applied to the
lower-cased cleaned text, which is equivalent under the `i` flag). -/
def isWorkshopFlag (l : List Char) : Bool :=
  hasS l ("workshop") || hasLitNwb l ("ws")

/-! ### The ordered classification rule table (source lines 458-870)

Each source `if (...) return isWorkshop ? W : M;` block becomes one
`VRule`; `main` is the non-workshop label, `ws` the label returned when
the workshop flag is set.  Rules whose source block returns the base name
unconditionally (the journal/transactions entries) have `ws = main`. -/

structure VRule where
  test : List Char → Bool
  main : String
  ws : String

/-- CVPR (source lines 462-481). -/
def rCVPR : VRule :=
  ⟨fun l =>
    hasS l ("computer vision and pattern recognition") || hasS l ("cvpr") ||
    seqS l ["cvf", "computer vision and pattern"] ||
    seqS l ["proceedings", "cvpr"] ||
    seqS l ["ieee", "cvf", "computer vision and pattern recognition"] ||
    seqS l ["ieee", "computer", "society", "conference", "computer vision and pattern"] ||
    seqS l ["proceedings", "ieee", "conference", "computer vision and pattern"] ||
    seqS l ["ieee", "conference", "computer vision and pattern"] ||
    d4SeqS l ["proceedings", "ieee", "conference", "computer vision and pattern"] ||
    d4SeqS l ["ieee", "computer", "society", "conference", "computer vision"],
   "CVPR", "CVPR Workshop"⟩

/-- ICCV (source lines 484-493). -/
def rICCV : VRule :=
  ⟨fun l =>
    hasS l ("international conference on computer vision") || hasS l ("iccv") ||
    seqS l ["proceedings", "iccv"] ||
    seqS l ["ieee", "international conference on computer vision"] ||
    seqS l ["ieee", "international", "conference", "computer vision"] ||
    seqS l ["proceedings", "ieee", "international", "conference", "computer vision"],
   "ICCV", "ICCV Workshop"⟩

/-- ECCV (source lines 496-504). -/
def rECCV : VRule :=
  ⟨fun l =>
    hasS l ("european conference on computer vision") || hasS l ("eccv") ||
    seqS l ["proceedings", "eccv"] ||
    seqS l ["european", "conference", "computer vision"],
   "ECCV", "ECCV Workshop"⟩

/-- WACV (source lines 507-513). -/
def rWACV : VRule :=
  ⟨fun l =>
    hasS l ("winter conference on applications of computer vision") || hasS l ("wacv") ||
    seqS l ["ieee", "cvf", "winter conference"] ||
    seqS l ["cvf", "winter conference"],
   "WACV", "WACV Workshop"⟩

/-- BMVC (source line 516). -/
def rBMVC : VRule :=
  ⟨fun l => hasS l ("british machine vision conference") || hasS l ("bmvc"),
   "BMVC", "BMVC Workshop"⟩

/-- ACCV (source line 521). -/
def rACCV : VRule :=
  ⟨fun l => hasS l ("asian conference on computer vision") || hasS l ("accv"),
   "ACCV", "ACCV Workshop"⟩

/-- NeurIPS (source lines 527-533). -/
def rNeurIPS : VRule :=
  ⟨fun l =>
    hasS l ("neural information processing systems") || hasS l ("neurips") ||
    hasS l ("nips") || hasS l ("advances in neural information processing") ||
    seqS l ["conference", "neural information processing"] ||
    seqS l ["proceedings", "nips"] || seqS l ["proceedings", "neurips"],
   "NeurIPS", "NeurIPS Workshop"⟩

/-- ICML (source lines 536-542). -/
def rICML : VRule :=
  ⟨fun l =>
    hasS l ("international conference on machine learning") || hasS l ("icml") ||
    seqS l ["proceedings", "icml"],
   "ICML", "ICML Workshop"⟩

/-- ICLR (source lines 545-551). -/
def rICLR : VRule :=
  ⟨fun l =>
    hasS l ("international conference on learning representations") || hasS l ("iclr"),
   "ICLR", "ICLR Workshop"⟩

/-- AISTATS (source lines 554-560). -/
def rAISTATS : VRule :=
  ⟨fun l =>
    hasS l ("artificial intelligence and statistics") || hasS l ("aistats") ||
    hasS l ("international conference on artificial intelligence and statistics"),
   "AISTATS", "AISTATS Workshop"⟩

/-- AAAI (source lines 564-570). -/
def rAAAI : VRule :=
  ⟨fun l =>
    hasS l ("aaai") ||
    hasS l ("association for the advancement of artificial intelligence") ||
    hasS l ("national conference on artificial intelligence") ||
    seqS l ["proceedings", "aaai"],
   "AAAI", "AAAI Workshop"⟩

/-- IJCAI (source lines 573-579). -/
def rIJCAI : VRule :=
  ⟨fun l =>
    hasS l ("international joint conference on artificial intelligence") || hasS l ("ijcai"),
   "IJCAI", "IJCAI Workshop"⟩

/-- UAI (source line 582). -/
def rUAI : VRule :=
  ⟨fun l => hasS l ("uncertainty in artificial intelligence") || hasS l ("uai"),
   "UAI", "UAI Workshop"⟩

/-- ACL, with the explicit NAACL/EACL exclusion (source lines 588-595). -/
def rACL : VRule :=
  ⟨fun l =>
    (hasS l ("association for computational linguistics") || hasS l ("acl") ||
     seqS l ["proceedings", "acl"]) &&
    !(hasS l ("naacl") || hasS l ("eacl")),
   "ACL", "ACL Workshop"⟩

/-- NAACL (source line 598). -/
def rNAACL : VRule :=
  ⟨fun l =>
    hasS l ("north american chapter") || hasS l ("naacl") ||
    seqS l ["findings", "naacl"],
   "NAACL", "NAACL Workshop"⟩

/-- EMNLP (source lines 603-607). -/
def rEMNLP : VRule :=
  ⟨fun l => hasS l ("empirical methods in natural language processing") || hasS l ("emnlp"),
   "EMNLP", "EMNLP Workshop"⟩

/-- CoNLL (source lines 610-616). -/
def rCoNLL : VRule :=
  ⟨fun l =>
    hasS l ("conference on computational natural language learning") || hasS l ("conll"),
   "CoNLL", "CoNLL Workshop"⟩

/-- EACL (source line 619). -/
def rEACL : VRule :=
  ⟨fun l => seqS l ["european chapter", "acl"] || hasS l ("eacl"),
   "EACL", "EACL Workshop"⟩

/-- COLING (source lines 624-630). -/
def rCOLING : VRule :=
  ⟨fun l =>
    hasS l ("international conference on computational linguistics") || hasS l ("coling"),
   "COLING", "COLING Workshop"⟩

/-- KDD (source lines 634-640). -/
def rKDD : VRule :=
  ⟨fun l =>
    hasS l ("sigkdd") || hasS l ("knowledge discovery and data mining") ||
    hasS l ("kdd") || seqS l ["proceedings", "kdd"],
   "ACM SIGKDD", "KDD Workshop"⟩

/-- ICDM (source line 643). -/
def rICDM : VRule :=
  ⟨fun l => hasS l ("international conference on data mining") || hasS l ("icdm"),
   "ICDM", "ICDM Workshop"⟩

/-- WWW (source lines 648-654). -/
def rWWW : VRule :=
  ⟨fun l =>
    hasS l ("world wide web conference") || hasS l ("www") ||
    hasS l ("international world wide web"),
   "WWW", "WWW Workshop"⟩

/-- ICRA (source lines 658-664). -/
def rICRA : VRule :=
  ⟨fun l =>
    hasS l ("international conference on robotics and automation") || hasS l ("icra") ||
    seqS l ["ieee", "robotics and automation"],
   "ICRA", "ICRA Workshop"⟩

/-- IROS (source lines 667-673). -/
def rIROS : VRule :=
  ⟨fun l =>
    hasS l ("intelligent robots and systems") || hasS l ("iros") ||
    seqS l ["ieee", "rsj", "intelligent robots"],
   "IROS", "IROS Workshop"⟩

/-- ICASSP (source lines 677-683). -/
def rICASSP : VRule :=
  ⟨fun l =>
    seqS l ["acoustics", "speech", "signal processing"] || hasS l ("icassp") ||
    hasS l ("international conference on acoustics"),
   "ICASSP", "ICASSP Workshop"⟩

/-- ICIP (source line 686). -/
def rICIP : VRule :=
  ⟨fun l => hasS l ("international conference on image processing") || hasS l ("icip"),
   "ICIP", "ICIP Workshop"⟩

/-- MICCAI; the `.` in `computer.assisted` matches one arbitrary character
(source lines 692-702). -/
def rMICCAI : VRule :=
  ⟨fun l =>
    hasLitAnyLit l ("medical image computing and computer") ("assisted intervention") ||
    hasS l ("miccai") ||
    hasLitAnyLit l ("international conference on medical image computing and computer") ("assisted") ||
    hasLitAnyLit l ("medical image computing and computer") ("assisted"),
   "MICCAI", "MICCAI Workshop"⟩

/-- IPMI (source line 705). -/
def rIPMI : VRule :=
  ⟨fun l => hasS l ("information processing in medical imaging") || hasS l ("ipmi"),
   "IPMI", "IPMI Workshop"⟩

/-- SIGGRAPH (source lines 711-715). -/
def rSIGGRAPH : VRule :=
  ⟨fun l => hasS l ("siggraph") || hasS l ("computer graphics and interactive techniques"),
   "SIGGRAPH", "SIGGRAPH Workshop"⟩

/-- IEEE VIS; `vis\s` requires a whitespace after `vis` (source line 718). -/
def rIEEEVIS : VRule :=
  ⟨fun l =>
    hasS l ("ieee visualization") || hasLitWs l ("vis") ||
    hasS l ("visualization conference"),
   "IEEE VIS", "IEEE VIS Workshop"⟩

/-- IEEE TPAMI — no workshop variant (source lines 724-730). -/
def rTPAMI : VRule :=
  ⟨fun l =>
    hasS l ("transactions on pattern analysis and machine intelligence") ||
    hasS l ("tpami") || seqS l ["ieee", "pattern analysis"],
   "IEEE TPAMI", "IEEE TPAMI"⟩

/-- IEEE TIP — no workshop variant (source line 733). -/
def rTIP : VRule :=
  ⟨fun l => hasS l ("transactions on image processing") || hasS l ("tip"),
   "IEEE TIP", "IEEE TIP"⟩

/-- IEEE TNN — no workshop variant (source line 738). -/
def rTNN : VRule :=
  ⟨fun l => hasS l ("transactions on neural networks") || hasS l ("tnn") || hasS l ("tnnls"),
   "IEEE TNN", "IEEE TNN"⟩

/-- IEEE TCYB — no workshop variant (source line 743). -/
def rTCYB : VRule :=
  ⟨fun l => hasS l ("transactions on cybernetics") || hasS l ("tcyb"),
   "IEEE TCYB", "IEEE TCYB"⟩

/-- IEEE TMM — no workshop variant (source line 748). -/
def rTMM : VRule :=
  ⟨fun l => hasS l ("transactions on multimedia") || hasS l ("tmm"),
   "IEEE TMM", "IEEE TMM"⟩

/-- IEEE Access — no workshop variant (source line 753). -/
def rAccess : VRule :=
  ⟨fun l => hasS l ("ieee access"), "IEEE Access", "IEEE Access"⟩

/-- IJCV — no workshop variant (source line 759). -/
def rIJCV : VRule :=
  ⟨fun l => hasS l ("international journal of computer vision") || hasS l ("ijcv"),
   "IJCV", "IJCV"⟩

/-- JMLR — no workshop variant (source line 764). -/
def rJMLR : VRule :=
  ⟨fun l => hasS l ("journal of machine learning research") || hasS l ("jmlr"),
   "JMLR", "JMLR"⟩

/-- Machine Learning Journal; the second alternative is the anchored
`^machine learning$` (source line 769). -/
def rMLJ : VRule :=
  ⟨fun l => hasS l ("machine learning journal") || eqS l ("machine learning"),
   "Machine Learning Journal", "Machine Learning Journal"⟩

/-- CVIU — no workshop variant (source line 774). -/
def rCVIU : VRule :=
  ⟨fun l => hasS l ("computer vision and image understanding") || hasS l ("cviu"),
   "CVIU", "CVIU"⟩

/-- Pattern Recognition journal: `pattern recognition\s|pattern recognition$`
(source line 779). -/
def rPatternRecognition : VRule :=
  ⟨fun l => hasLitWs l ("pattern recognition") || endsWithS l ("pattern recognition"),
   "Pattern Recognition", "Pattern Recognition"⟩

/-- Medical Image Analysis — no workshop variant (source line 784). -/
def rMedIA : VRule :=
  ⟨fun l => hasS l ("medical image analysis"),
   "Medical Image Analysis", "Medical Image Analysis"⟩

/-- Neurocomputing — no workshop variant (source line 789). -/
def rNeurocomputing : VRule :=
  ⟨fun l => hasS l ("neurocomputing"), "Neurocomputing", "Neurocomputing"⟩

/-- Science: `^science\s|^\s*science$` (source line 795). -/
def rScience : VRule :=
  ⟨fun l => startsWithLitWs l ("science") || wsStarThenExact l ("science"),
   "Science", "Science"⟩

/-- Nature Communications (source line 800). -/
def rNatComm : VRule :=
  ⟨fun l => hasS l ("nature communications"),
   "Nature Communications", "Nature Communications"⟩

/-- Nature Machine Intelligence (source line 804). -/
def rNatMI : VRule :=
  ⟨fun l => hasS l ("nature machine intelligence"),
   "Nature Machine Intelligence", "Nature Machine Intelligence"⟩

/-- Nature: anchored `^nature$` (source line 808). -/
def rNature : VRule :=
  ⟨fun l => eqS l ("nature"), "Nature", "Nature"⟩

/-- PNAS (source lines 813-815). -/
def rPNAS : VRule :=
  ⟨fun l => hasS l ("proceedings of the national academy of sciences") || hasS l ("pnas"),
   "PNAS", "PNAS"⟩

/-- arXiv (source line 821). -/
def rArXiv : VRule :=
  ⟨fun l => hasS l ("arxiv") || hasS l ("ar xiv") || hasS l ("corr"),
   "arXiv", "arXiv"⟩

/-- bioRxiv (source line 826). -/
def rBioRxiv : VRule :=
  ⟨fun l => hasS l ("biorxiv"), "bioRxiv", "bioRxiv"⟩

/-- Patents (source line 831). -/
def rPatents : VRule :=
  ⟨fun l => hasS l ("patent") || hasS l ("us patent"), "US Patents", "US Patents"⟩

/-- SSRN (source line 836). -/
def rSSRN : VRule :=
  ⟨fun l => hasS l ("ssrn") || hasS l ("social science research network"),
   "Available at SSRN", "Available at SSRN"⟩

/-- Springer (source line 842). -/
def rSpringer : VRule :=
  ⟨fun l =>
    hasS l ("springer") || hasS l ("lecture notes in computer science") || hasS l ("lncs"),
   "Springer", "Springer"⟩

/-- MIT Press (source line 847). -/
def rMITPress : VRule :=
  ⟨fun l => hasS l ("mit press"), "MIT Press", "MIT Press"⟩

/-- CHI: `conference on human factors|chi\s|acm chi` (source line 853). -/
def rCHI : VRule :=
  ⟨fun l =>
    hasS l ("conference on human factors") || hasLitWs l ("chi") || hasS l ("acm chi"),
   "ACM CHI", "CHI Workshop"⟩

/-- SIGIR (source line 858). -/
def rSIGIR : VRule :=
  ⟨fun l => hasS l ("sigir") || hasS l ("information retrieval"),
   "ACM SIGIR", "SIGIR Workshop"⟩

/-- INTERSPEECH (source line 863). -/
def rINTERSPEECH : VRule :=
  ⟨fun l => hasS l ("interspeech"), "INTERSPEECH", "INTERSPEECH Workshop"⟩

/-- ISCA — returned unconditionally (source line 868). -/
def rISCA : VRule :=
  ⟨fun l => hasS l ("isca"), "ISCA", "ISCA"⟩

/-- Rules evaluated before the ACL rule, in source order. -/
def preACLRules : List VRule :=
  [rCVPR, rICCV, rECCV, rWACV, rBMVC, rACCV, rNeurIPS, rICML, rICLR, rAISTATS,
   rAAAI, rIJCAI, rUAI]

/-- Rules evaluated after the NAACL rule, in source order. -/
def postNAACLRules : List VRule :=
  [rEMNLP, rCoNLL, rEACL, rCOLING, rKDD, rICDM, rWWW, rICRA, rIROS, rICASSP,
   rICIP, rMICCAI, rIPMI, rSIGGRAPH, rIEEEVIS, rTPAMI, rTIP, rTNN, rTCYB, rTMM,
   rAccess, rIJCV, rJMLR, rMLJ, rCVIU, rPatternRecognition, rMedIA,
   rNeurocomputing, rScience, rNatComm, rNatMI, rNature, rPNAS, rArXiv,
   rBioRxiv, rPatents, rSSRN, rSpringer, rMITPress, rCHI, rSIGIR,
   rINTERSPEECH, rISCA]

/-- The full area rule table, in source order (lines 462-870). -/
def areaRules : List VRule :=
  preACLRules ++ rACL :: rNAACL :: postNAACLRules

/-- Top-to-bottom evaluation: the first matching rule wins and yields its
workshop label when the flag is set, its main label otherwise. -/
def firstMatch : List VRule → Bool → List Char → Option String
  | [], _, _ => none
  | r :: rs, w, l => if r.test l then some (if w then r.ws else r.main) else firstMatch rs w l

/-- The generic workshop pass (source lines 874-886), reached only when the
workshop flag is set and no area rule matched. -/
def workshopSection (l : List Char) : String :=
  if hasS l ("cvpr") then "CVPR Workshop"
  else if hasS l ("iccv") then "ICCV Workshop"
  else if hasS l ("eccv") then "ECCV Workshop"
  else if hasS l ("neurips") || hasS l ("nips") then "NeurIPS Workshop"
  else if hasS l ("icml") then "ICML Workshop"
  else if hasS l ("aaai") then "AAAI Workshop"
  else if hasS l ("ijcai") then "IJCAI Workshop"
  else "Workshop"

/-- The relaxed catch-all rules (source lines 891-915). -/
def catchAllRules : List VRule :=
  [⟨fun l =>
      seqS l ["computer vision", "pattern"] &&
      (hasS l ("ieee") || hasS l ("conference") || hasS l ("proceedings")),
    "CVPR", "CVPR Workshop"⟩,
   ⟨fun l =>
      seqS l ["international", "computer vision"] &&
      (hasS l ("ieee") || hasS l ("conference") || hasS l ("proceedings")) &&
      !hasS l ("pattern"),
    "ICCV", "ICCV Workshop"⟩,
   ⟨fun l => seqS l ["european", "computer vision"], "ECCV", "ECCV Workshop"⟩,
   ⟨fun l => seqS l ["medical", "image", "computing"], "MICCAI", "MICCAI Workshop"⟩]

/-! ### Fallback stage (source lines 917-945) -/

/-- `venueText.split(/[,.(]/)[0]` — the text up to the first comma, period
or opening parenthesis. -/
def splitFirstSeg (c : List Char) : List Char :=
  c.takeWhile fun ch => !(ch == ',' || ch == '.' || ch == '(')

/-- `^p\s+` (case-insensitive): the literal then at least one whitespace
character; the greedy `\s+` swallows the whole run. -/
def dropLitWsPlus (p : String) (s : List Char) : Option (List Char) :=
  match dropCI p.data s with
  | some r =>
    match r with
    | x :: _ => if isWsChar x then some (r.dropWhile isWsChar) else none
    | [] => none
  | none => none

/-- `replace(/^(proceedings of the |proceedings of |proceedings |proc\.?\s+|the\s+)/i, "")`. -/
def dropFallbackPfx (s : List Char) : List Char :=
  match dropCI ("proceedings of the ").data s with
  | some r => r
  | none =>
    match dropCI ("proceedings of ").data s with
    | some r => r
    | none =>
      match dropCI ("proceedings ").data s with
      | some r => r
      | none =>
        match dropLitWsPlus ("proc.") s with
        | some r => r
        | none =>
          match dropLitWsPlus ("proc") s with
          | some r => r
          | none =>
            match dropLitWsPlus ("the") s with
            | some r => r
            | none => s

/-- From the reversed string, drop a reversed lower-case literal and then a
whitespace run of length at least one (used for end-anchored suffixes). -/
def dropRevLitWsPlus (p : String) (r : List Char) : Option (List Char) :=
  match dropCI p.data r with
  | some rest =>
    match rest with
    | x :: _ => if isWsChar x then some (rest.dropWhile isWsChar) else none
    | [] => none
  | none => none

/-- `replace(/\s+(proceedings|proc\.?)$/i, "")`. -/
def dropSuffixProc (s : List Char) : List Char :=
  let r := s.reverse
  match dropRevLitWsPlus ("sgnideecorp") r with
  | some rest => rest.reverse
  | none =>
    match dropRevLitWsPlus (".corp") r with
    | some rest => rest.reverse
    | none =>
      match dropRevLitWsPlus ("corp") r with
      | some rest => rest.reverse
      | none => s

/-- `replace(/\s+\d{4}$/, "")`. -/
def dropTrailYear4 (s : List Char) : List Char :=
  match s.reverse with
  | a :: b :: c :: d :: rest =>
    if isDigitChar a && isDigitChar b && isDigitChar c && isDigitChar d then
      match rest with
      | x :: _ => if isWsChar x then (rest.dropWhile isWsChar).reverse else s
      | [] => s
    else s
  | _ => s

/-- `replace(/\s+\d+$/, "")`. -/
def dropTrailNum (s : List Char) : List Char :=
  let r := s.reverse
  let ds := r.takeWhile isDigitChar
  if ds.isEmpty then s
  else
    match r.dropWhile isDigitChar with
    | x :: _ =>
      if isWsChar x then ((r.dropWhile isDigitChar).dropWhile isWsChar).reverse else s
    | [] => s

/-- The simplified remainder computed by the fallback stage. -/
def fallbackSimplified (c : List Char) : List Char :=
  let s0 := trimChars (splitFirstSeg c)
  let s1 := dropFallbackPfx s0
  let s2 := dropSuffixProc s1
  let s3 := dropTrailYear4 s2
  let s4 := dropTrailNum s3
  trimChars s4

/-- `/^(the|a|an|in|on|of|and|for|with)$/i` on the simplified remainder. -/
def isStopWord (l : List Char) : Bool :=
  eqS l ("the") || eqS l ("a") || eqS l ("an") || eqS l ("in") || eqS l ("on") ||
  eqS l ("of") || eqS l ("and") || eqS l ("for") || eqS l ("with")

/-- The fallback stage: reject remainders shorter than three characters or
equal to a stop word, otherwise return the remainder verbatim
(`return simplifiedVenue || null`). -/
def fallbackProcess (c : List Char) : Option (List Char) :=
  let sv := fallbackSimplified c
  if sv.length < 3 then none
  else if isStopWord (lowerList sv) then none
  else if sv.isEmpty then none
  else some sv

/-- The venue classifier `normalizeVenue` (source lines 422-946). -/
def normalizeVenue (venueText : String) : Option String :=
  if venueText = "" then none
  else
    let c := cleanVenueText venueText.data
    let l := lowerList c
    let w := isWorkshopFlag l
    match firstMatch areaRules w l with
    | some v => some v
    | none =>
      if w then some (workshopSection l)
      else
        match firstMatch catchAllRules w l with
        | some v => some v
        | none => (fallbackProcess c).map fun cs => String.mk cs

/-! ### Extraction and aggregation (`extractVenueData`, source lines 363-419) -/

def trimString (s : String) : String :=
  String.mk (trimChars s.data)

structure VenueCount where
  venue : String
  count : Nat
deriving DecidableEq

/-- `venues[v] = (venues[v] || 0) + 1` on an insertion-ordered map, modelled
as an association list where new keys are appended. -/
def upsert : List (String × Nat) → String → List (String × Nat)
  | [], v => [(v, 1)]
  | (k, c) :: rest, v => if k = v then (k, c + 1) :: rest else (k, c) :: upsert rest v

/-- Stable insertion for descending-by-count order: an element goes before
the first entry with a strictly smaller or equal position… it is placed
before the first entry whose count is at most its own, so entries that
were earlier in the input stay first among equal counts (matching the
stable `Array.prototype.sort` with comparator `b.count - a.count`). -/
def insertDesc (x : VenueCount) : List VenueCount → List VenueCount
  | [] => [x]
  | y :: ys => if y.count ≤ x.count then x :: y :: ys else y :: insertDesc x ys

def sortByCountDesc : List VenueCount → List VenueCount
  | [] => []
  | x :: xs => insertDesc x (sortByCountDesc xs)

structure ExtractResult where
  venues : List VenueCount
  processedCount : Nat
  skippedCount : Nat
deriving DecidableEq

/-- One record of the `publications.forEach` loop: a record is the venue
fragment found for it (`none` when no venue element was located). -/
def extractStep (acc : List (String × Nat) × Nat × Nat) (entry : Option String) :
    List (String × Nat) × Nat × Nat :=
  match entry with
  | none => (acc.1, acc.2.1, acc.2.2 + 1)
  | some t =>
    match normalizeVenue (trimString t) with
    | some v => (upsert acc.1 v, acc.2.1 + 1, acc.2.2)
    | none => (acc.1, acc.2.1, acc.2.2 + 1)

/-- `extractVenueData` (source lines 363-419): classify every record,
aggregate counts, then sort by count descending (stable). -/
def extractVenueData (records : List (Option String)) : ExtractResult :=
  let st := records.foldl extractStep ([], 0, 0)
  { venues := sortByCountDesc (st.1.map fun e => ⟨e.1, e.2⟩),
    processedCount := st.2.1,
    skippedCount := st.2.2 }

/-! ### The pagination loader and the orchestrator (source lines 52-249)

The page is abstracted behind `PageSource`, indexed by the number of
successful growth iterations so far: `recordsAt a` is the list of visible
records (their venue fragments) after `a` growth rounds, `discover a`
tells whether a valid show-more affordance is found at the iteration with
counter value `a` (or raises), and `clickWait a` is the combined
click-and-wait-for-growth step, returning the record count it observed
(or raising).  `discover` errors propagate — in the source,
`findShowMoreButtonSync()` is called outside the `try` block — while
`clickWait` errors are caught by the `try/catch` and just break the loop. -/

structure PageSource where
  recordsAt : Nat → List (Option String)
  discover : Nat → Except String Bool
  clickWait : Nat → Except String Nat

inductive StopReason where
  | noButton
  | noGrowth
  | caughtError
  | ceiling
deriving DecidableEq

/-- The `while (attempts < maxAttempts)` loop of `loadAllPublications`,
written with explicit fuel `maxAttempts - attempts`; `attempts` is
incremented exactly on growth iterations, as in the source. -/
def loadLoop (src : PageSource) : Nat → Nat → Nat → Except String (Nat × StopReason)
  | 0, attempts, _ => Except.ok (attempts, StopReason.ceiling)
  | fuel + 1, attempts, before =>
    match src.discover attempts with
    | Except.error e => Except.error e
    | Except.ok false => Except.ok (attempts, StopReason.noButton)
    | Except.ok true =>
      match src.clickWait attempts with
      | Except.error _ => Except.ok (attempts, StopReason.caughtError)
      | Except.ok newCount =>
        if newCount = before then Except.ok (attempts, StopReason.noGrowth)
        else loadLoop src fuel (attempts + 1) newCount

def maxAttempts : Nat := 200

/-- `loadAllPublications` (source lines 179-249): run the loop from the
initial visible count, then re-read and return the final count. -/
def loadAllPublications (src : PageSource) : Except String (Nat × Nat × StopReason) :=
  match loadLoop src maxAttempts 0 (src.recordsAt 0).length with
  | Except.error e => Except.error e
  | Except.ok (a, r) => Except.ok ((src.recordsAt a).length, a, r)

structure AnalysisData where
  venues : List VenueCount
  totalFound : Nat
  totalProcessed : Nat
  totalSkipped : Nat
  success : Bool
deriving DecidableEq

/-- The tail of `analyzeAllVenues` after loading: extraction, the
empty-aggregate check, and packaging (source lines 109-143). -/
def finishAnalysis (records : List (Option String)) : Except String AnalysisData :=
  let res := extractVenueData records
  if res.venues.length = 0 then
    Except.error ("No venues could be extracted from the publications")
  else
    Except.ok ⟨res.venues, records.length, res.processedCount, res.skippedCount, true⟩

/-- `analyzeAllVenues` (source lines 52-148): validate the page, require a
nonzero initial record count, load to exhaustion (rethrowing loader
failures), then extract and aggregate over the loaded records. -/
def analyzeAllVenues (src : PageSource) (validPage : Bool) : Except String AnalysisData :=
  if !validPage then
    Except.error ("This page does not appear to be a Google Scholar profile with publications")
  else if (src.recordsAt 0).length = 0 then
    Except.error ("No publications found on this page")
  else
    match loadAllPublications src with
    | Except.error e => Except.error e
    | Except.ok (_, attempts, _) => finishAnalysis (src.recordsAt attempts)

/-! ### The message listener and its reentrancy flag (source lines 14-49) -/

structure MessageResponse where
  success : Option Bool
  error : Option String
  venues : Option (List VenueCount)
  totalFound : Option Nat
  totalProcessed : Option Nat
  totalSkipped : Option Nat
deriving DecidableEq

/-- `sendResponse({ error: "Analysis already in progress - please wait" })`
— note the `success` field is omitted. -/
def busyResponse : MessageResponse :=
  ⟨none, some ("Analysis already in progress - please wait"), none, none, none, none⟩

/-- The listener state: the `isAnalyzing` flag plus the (abstract) state of
whatever run is currently in flight. -/
structure ListenerState (α : Type) where
  isAnalyzing : Bool
  runState : α

/-- The synchronous dispatch step of the `chrome.runtime.onMessage`
listener for one request: a busy rejection answers immediately and leaves
the state untouched; otherwise the flag is set and the asynchronous run
starts (its response arrives later, so no response is produced here). -/
def onMessage {α : Type} (st : ListenerState α) (action : String) :
    Option MessageResponse × ListenerState α :=
  if action = "analyzeVenues" then
    if st.isAnalyzing then (some busyResponse, st)
    else (none, { st with isAnalyzing := true })
  else (none, st)

/-! ### Quantities and concrete instances used by the statements below -/

/-- Sum of the counts in the raw aggregation map. -/
def sumCounts (m : List (String × Nat)) : Nat :=
  (m.map fun e => e.2).sum

/-- Sum of the per-venue counts of an aggregated venue list. -/
def sumVC (t : List VenueCount) : Nat :=
  (t.map VenueCount.count).sum

/-- Every canonical label the recognition stages can produce: the main and
workshop labels of the area rules and the catch-all rules, and the labels
of the generic workshop pass. -/
def canonicalRuleLabels : List String :=
  (areaRules.map VRule.main) ++ (areaRules.map VRule.ws) ++
  (catchAllRules.map VRule.main) ++ (catchAllRules.map VRule.ws) ++
  ["CVPR Workshop", "ICCV Workshop", "ECCV Workshop", "NeurIPS Workshop",
   "ICML Workshop", "AAAI Workshop", "IJCAI Workshop", "Workshop"]

/-- The acronym-specific labels of the generic workshop pass (source lines
876-882); the open-ended result of that pass is the distinct `"Workshop"`. -/
def recognizedAcronymWorkshopLabels : List String :=
  ["CVPR Workshop", "ICCV Workshop", "ECCV Workshop", "NeurIPS Workshop",
   "ICML Workshop", "AAAI Workshop", "IJCAI Workshop"]

/-- The three raw venue texts of the end-to-end scenario, in encounter order. -/
def c2Records : List (Option String) :=
  [some "2021 IEEE/CVF Conference on Computer Vision and Pattern Recognition, 2021",
   some "arXiv preprint arXiv:2001.00001",
   some "2021 IEEE/CVF Conference on Computer Vision and Pattern Recognition Workshops"]

/-- A page source with two records, one classifiable, where no reveal
affordance is ever found. -/
def wSrcOk : PageSource :=
  ⟨fun _ => [some "CVPR 2021", none], fun _ => Except.ok false, fun _ => Except.ok 1⟩

/-- A page source whose affordance is always discoverable and actionable
but whose invocation never changes the record count. -/
def wSrcInert : PageSource :=
  ⟨fun _ => [some "x"], fun _ => Except.ok true, fun _ => Except.ok 1⟩

/-- A page source whose affordance discovery raises on every iteration. -/
def wSrcBoom : PageSource :=
  ⟨fun _ => [some "x"], fun _ => Except.error ("boom"), fun _ => Except.ok 1⟩

/-- A page source whose click-and-wait step raises on every iteration. -/
def wSrcClickBoom : PageSource :=
  ⟨fun _ => [some "CVPR 2021"], fun _ => Except.ok true, fun _ => Except.error ("click failed")⟩

/-! ### Helper lemmas -/

theorem normalizeVenue_eq (s : String) (hs : s ≠ "") :
    normalizeVenue s =
      (match firstMatch areaRules (isWorkshopFlag (lowerList (cleanVenueText s.data)))
          (lowerList (cleanVenueText s.data)) with
       | some v => some v
       | none =>
         if isWorkshopFlag (lowerList (cleanVenueText s.data)) then
           some (workshopSection (lowerList (cleanVenueText s.data)))
         else
           match firstMatch catchAllRules (isWorkshopFlag (lowerList (cleanVenueText s.data)))
               (lowerList (cleanVenueText s.data)) with
           | some v => some v
           | none => (fallbackProcess (cleanVenueText s.data)).map fun cs => String.mk cs) := by
  unfold normalizeVenue
  rw [if_neg hs]

theorem firstMatch_mem {rs : List VRule} {w : Bool} {l : List Char} {v : String}
    (h : firstMatch rs w l = some v) :
    ∃ r ∈ rs, r.test l = true ∧ v = if w then r.ws else r.main := by
  induction rs with
  | nil => simp [firstMatch] at h
  | cons r rest ih =>
    simp only [firstMatch] at h
    split at h
    case isTrue ht =>
      injection h with h'
      exact ⟨r, List.mem_cons_self r rest, ht, h'.symm⟩
    case isFalse ht =>
      obtain ⟨r', hr', ht', hv'⟩ := ih h
      exact ⟨r', List.mem_cons_of_mem _ hr', ht', hv'⟩

theorem firstMatch_append_some {rs1 rs2 : List VRule} {w : Bool} {l : List Char} {v : String}
    (h : firstMatch rs1 w l = some v) :
    firstMatch (rs1 ++ rs2) w l = some v := by
  induction rs1 with
  | nil => simp [firstMatch] at h
  | cons r rest ih =>
    simp only [List.cons_append, firstMatch] at h ⊢
    split at h
    case isTrue ht => simp only [if_pos ht]; exact h
    case isFalse ht => simp only [if_neg ht]; exact ih h

theorem firstMatch_append_none {rs1 rs2 : List VRule} {w : Bool} {l : List Char}
    (h : firstMatch rs1 w l = none) :
    firstMatch (rs1 ++ rs2) w l = firstMatch rs2 w l := by
  induction rs1 with
  | nil => simp [firstMatch]
  | cons r rest ih =>
    simp only [List.cons_append, firstMatch] at h ⊢
    split at h
    case isTrue ht => exact absurd h (by simp)
    case isFalse ht => simp only [if_neg ht]; exact ih h

theorem firstMatch_none_of_all {rs : List VRule} {w : Bool} {l : List Char}
    (h : ∀ r ∈ rs, r.test l = false) :
    firstMatch rs w l = none := by
  induction rs with
  | nil => rfl
  | cons r rest ih =>
    have ht := h r (List.mem_cons_self r rest)
    simp only [firstMatch, ht]
    exact ih fun r' hr' => h r' (List.mem_cons_of_mem _ hr')

theorem sumCounts_upsert (m : List (String × Nat)) (v : String) :
    sumCounts (upsert m v) = sumCounts m + 1 := by
  induction m with
  | nil => rfl
  | cons e rest ih =>
    obtain ⟨k, c⟩ := e
    simp only [upsert]
    split
    case isTrue hk => simp only [sumCounts, List.map_cons, List.sum_cons]; omega
    case isFalse hk =>
      simp only [sumCounts, List.map_cons, List.sum_cons] at ih ⊢
      omega

theorem sumVC_insertDesc (x : VenueCount) (t : List VenueCount) :
    sumVC (insertDesc x t) = x.count + sumVC t := by
  induction t with
  | nil => simp [insertDesc, sumVC]
  | cons y ys ih =>
    simp only [insertDesc]
    split
    case isTrue hy => simp only [sumVC, List.map_cons, List.sum_cons]
    case isFalse hy =>
      simp only [sumVC, List.map_cons, List.sum_cons] at ih ⊢
      omega

theorem sumVC_sortByCountDesc (t : List VenueCount) :
    sumVC (sortByCountDesc t) = sumVC t := by
  induction t with
  | nil => rfl
  | cons x xs ih =>
    simp only [sortByCountDesc, sumVC_insertDesc]
    simp only [sumVC, List.map_cons, List.sum_cons] at ih ⊢
    omega

theorem sumVC_map_pairs (m : List (String × Nat)) :
    sumVC (m.map fun e => (⟨e.1, e.2⟩ : VenueCount)) = sumCounts m := by
  induction m with
  | nil => rfl
  | cons e rest ih =>
    simp only [List.map_cons, sumVC, sumCounts, List.sum_cons] at ih ⊢
    omega

theorem extract_foldl_inv (records : List (Option String)) :
    ∀ m p k,
      sumCounts (records.foldl extractStep (m, p, k)).1 + p
        = sumCounts m + (records.foldl extractStep (m, p, k)).2.1
      ∧ (records.foldl extractStep (m, p, k)).2.1 + (records.foldl extractStep (m, p, k)).2.2
        = p + k + records.length := by
  induction records with
  | nil => intro m p k; simp
  | cons entry rest ih =>
    intro m p k
    simp only [List.foldl_cons, List.length_cons]
    cases entry with
    | none =>
      simp only [extractStep]
      have h1 := (ih m p (k + 1)).1
      have h2 := (ih m p (k + 1)).2
      exact ⟨h1, by omega⟩
    | some t =>
      cases hn : normalizeVenue (trimString t) with
      | some v =>
        simp only [extractStep, hn]
        have h1 := (ih (upsert m v) (p + 1) k).1
        have h2 := (ih (upsert m v) (p + 1) k).2
        rw [sumCounts_upsert] at h1
        exact ⟨by omega, by omega⟩
      | none =>
        simp only [extractStep, hn]
        have h1 := (ih m p (k + 1)).1
        have h2 := (ih m p (k + 1)).2
        exact ⟨h1, by omega⟩

theorem extract_counts (records : List (Option String)) :
    sumVC (extractVenueData records).venues = (extractVenueData records).processedCount
    ∧ (extractVenueData records).processedCount + (extractVenueData records).skippedCount
      = records.length := by
  have h1 := (extract_foldl_inv records [] 0 0).1
  have h2 := (extract_foldl_inv records [] 0 0).2
  have h0 : sumCounts ([] : List (String × Nat)) = 0 := rfl
  simp only [extractVenueData, sumVC_sortByCountDesc, sumVC_map_pairs]
  exact ⟨by omega, by omega⟩

theorem loadLoop_zero (src : PageSource) (att before : Nat) :
    loadLoop src 0 att before = Except.ok (att, StopReason.ceiling) := rfl

theorem loadLoop_succ (src : PageSource) (fuel att before : Nat) :
    loadLoop src (fuel + 1) att before =
      (match src.discover att with
       | Except.error e => Except.error e
       | Except.ok false => Except.ok (att, StopReason.noButton)
       | Except.ok true =>
         match src.clickWait att with
         | Except.error _ => Except.ok (att, StopReason.caughtError)
         | Except.ok newCount =>
           if newCount = before then Except.ok (att, StopReason.noGrowth)
           else loadLoop src fuel (att + 1) newCount) := rfl

theorem loadLoop_attempts_le (src : PageSource) :
    ∀ fuel att before a r, loadLoop src fuel att before = Except.ok (a, r) → a ≤ att + fuel := by
  intro fuel
  induction fuel with
  | zero =>
    intro att before a r h
    rw [loadLoop_zero] at h
    simp only [Except.ok.injEq, Prod.mk.injEq] at h
    omega
  | succ fuel ih =>
    intro att before a r h
    rw [loadLoop_succ] at h
    cases hd : src.discover att with
    | error e => simp [hd] at h
    | ok b =>
      cases b with
      | false =>
        simp only [hd, Except.ok.injEq, Prod.mk.injEq] at h
        omega
      | true =>
        cases hc : src.clickWait att with
        | error e =>
          simp only [hd, hc, Except.ok.injEq, Prod.mk.injEq] at h
          omega
        | ok n =>
          simp only [hd, hc] at h
          by_cases hn : n = before
          · rw [if_pos hn] at h
            simp only [Except.ok.injEq, Prod.mk.injEq] at h
            omega
          · rw [if_neg hn] at h
            have := ih (att + 1) n a r h
            omega

theorem loadLoop_ok_of_discover_ok (src : PageSource)
    (hd : ∀ i, ∃ b, src.discover i = Except.ok b) :
    ∀ fuel att before, ∃ out, loadLoop src fuel att before = Except.ok out := by
  intro fuel
  induction fuel with
  | zero => intro att before; exact ⟨(att, StopReason.ceiling), loadLoop_zero src att before⟩
  | succ fuel ih =>
    intro att before
    obtain ⟨b, hb⟩ := hd att
    cases b with
    | false => exact ⟨(att, StopReason.noButton), by simp [loadLoop_succ, hb]⟩
    | true =>
      cases hc : src.clickWait att with
      | error e => exact ⟨(att, StopReason.caughtError), by simp [loadLoop_succ, hb, hc]⟩
      | ok n =>
        by_cases hn : n = before
        · exact ⟨(att, StopReason.noGrowth), by simp [loadLoop_succ, hb, hc, hn]⟩
        · obtain ⟨out, hout⟩ := ih (att + 1) n
          exact ⟨out, by simp [loadLoop_succ, hb, hc, hn, hout]⟩

theorem areaRules_label_min : ∀ r ∈ areaRules, 3 ≤ r.main.length ∧ 3 ≤ r.ws.length := by
  decide

theorem catchAllRules_label_min : ∀ r ∈ catchAllRules, 3 ≤ r.main.length ∧ 3 ≤ r.ws.length := by
  decide

theorem workshopSection_min (l : List Char) : 3 ≤ (workshopSection l).length := by
  unfold workshopSection
  repeat' split
  all_goals decide

theorem fallbackProcess_min {c cs : List Char} (h : fallbackProcess c = some cs) :
    3 ≤ cs.length := by
  simp only [fallbackProcess] at h
  split at h
  next hlt => exact absurd h (by simp)
  next hlt =>
    split at h
    next hstop => exact absurd h (by simp)
    next hstop =>
      split at h
      next hemp => exact absurd h (by simp)
      next hemp =>
        injection h with h'
        subst h'
        omega

theorem preACL_no_acl_labels :
    ∀ r ∈ preACLRules,
      (r.main ≠ "ACL" ∧ r.ws ≠ "ACL") ∧ (r.main ≠ "ACL Workshop" ∧ r.ws ≠ "ACL Workshop") := by
  decide

theorem firstMatch_cons_pos {r : VRule} {rs : List VRule} {w : Bool} {l : List Char}
    (h : r.test l = true) :
    firstMatch (r :: rs) w l = some (if w then r.ws else r.main) := by
  simp [firstMatch, h]

/-! ### The claims -/

/-- C1 (counterexample): `normalize` is not idempotent on its own output.
`normalize("Machine Learning, Kluwer")` falls through every rule and
returns the fallback label `"Machine Learning"`, but feeding that label
back in matches the anchored `^machine learning$` alternative of the
Machine Learning Journal rule and returns `"Machine Learning Journal"`. -/
theorem normalize_not_idempotent_on_fallback :
    normalizeVenue ("Machine Learning, Kluwer") = some ("Machine Learning") ∧
    normalizeVenue ("Machine Learning") = some ("Machine Learning Journal") ∧
    (("Machine Learning Journal" : String) ≠ ("Machine Learning")) := by
  decide

/-- C1 (amended): `normalize` is idempotent on every canonical label the
recognition rules can produce — each main label, workshop label, catch-all
label and generic-workshop-pass label is a fixed point of `normalize`;
idempotence can fail only for fallback-produced labels. -/
theorem normalize_idempotent_on_canonical_rule_labels :
    canonicalRuleLabels.all (fun v => normalizeVenue v == some v) = true := by
  decide

/-- C2 (counterexample): on the three-record scenario the aggregation pass
orders equal-count venues by first encounter — `CVPR`, then `arXiv`, then
`CVPR Workshop` — not in the order `CVPR`, `CVPR Workshop`, `arXiv`
stated by the claim. -/
theorem extract_scenario_tie_order_counterexample :
    (extractVenueData c2Records).venues
      = [⟨"CVPR", 1⟩, ⟨"arXiv", 1⟩, ⟨"CVPR Workshop", 1⟩] ∧
    (extractVenueData c2Records).venues
      ≠ [⟨"CVPR", 1⟩, ⟨"CVPR Workshop", 1⟩, ⟨"arXiv", 1⟩] := by
  decide

/-- C2 (amended): the extraction-and-aggregation pass on the three records
produces the venue list `[CVPR: 1, arXiv: 1, CVPR Workshop: 1]` with ties
in first-encounter order, `processedCount = 3` and `skippedCount = 0`. -/
theorem extract_scenario_three_records :
    extractVenueData c2Records
      = ⟨[⟨"CVPR", 1⟩, ⟨"arXiv", 1⟩, ⟨"CVPR Workshop", 1⟩], 3, 0⟩ := by
  decide

/-- C3: for every page source, a successful `AnalysisResult` satisfies both
accounting equations — the per-venue counts sum to `totalProcessed`, and
`totalProcessed + totalSkipped = totalFound` (the number of records seen),
so every record is counted exactly once as processed or skipped. -/
theorem analysis_counts_consistent (src : PageSource) (valid : Bool) (d : AnalysisData)
    (h : analyzeAllVenues src valid = Except.ok d) :
    sumVC d.venues = d.totalProcessed ∧ d.totalProcessed + d.totalSkipped = d.totalFound := by
  unfold analyzeAllVenues at h
  split at h
  next => exact absurd h (by simp)
  next =>
    split at h
    next => exact absurd h (by simp)
    next =>
      cases hl : loadAllPublications src with
      | error e => simp only [hl] at h; exact absurd h (by simp)
      | ok out =>
        obtain ⟨c, a, r⟩ := out
        simp only [hl] at h
        simp only [finishAnalysis] at h
        split at h
        next => exact absurd h (by simp)
        next =>
          injection h with h'
          subst h'
          exact ⟨(extract_counts (src.recordsAt a)).1, (extract_counts (src.recordsAt a)).2⟩

/-- C3 (witness): the accounting equations at a concrete two-record source
whose run yields one processed and one skipped record. -/
theorem analysis_counts_consistent_witness :
    sumVC ([⟨"CVPR", 1⟩] : List VenueCount) = 1 ∧ (1 : Nat) + 1 = 2 := by
  have h := analysis_counts_consistent wSrcOk true ⟨[⟨"CVPR", 1⟩], 2, 1, 1, true⟩ (by rfl)
  exact h

/-- C7: the incremental loader always terminates — every successful run
uses at most `maxAttempts` (200) growth iterations and returns the current
final record count; and for a source whose reveal affordance is always
discoverable and actionable but whose invocation never changes the record
count, the loop stops on its very first pass via the no-growth-timeout
path, before the attempt ceiling. -/
theorem loader_terminates (src : PageSource) :
    (∀ c a r, loadAllPublications src = Except.ok (c, a, r) →
      a ≤ maxAttempts ∧ c = (src.recordsAt a).length) ∧
    ((∀ i, src.discover i = Except.ok true) →
      (∀ i, src.clickWait i = Except.ok (src.recordsAt 0).length) →
      loadAllPublications src = Except.ok ((src.recordsAt 0).length, 0, StopReason.noGrowth)) := by
  constructor
  · intro c a r h
    unfold loadAllPublications at h
    cases hl : loadLoop src maxAttempts 0 (src.recordsAt 0).length with
    | error e => simp only [hl] at h; exact absurd h (by simp)
    | ok out =>
      obtain ⟨a', r'⟩ := out
      simp only [hl, Except.ok.injEq, Prod.mk.injEq] at h
      obtain ⟨hc, ha, hr⟩ := h
      have hle := loadLoop_attempts_le src maxAttempts 0 (src.recordsAt 0).length a' r' hl
      constructor
      · omega
      · rw [← ha]; exact hc.symm
  · intro h1 h2
    unfold loadAllPublications
    have hstep : loadLoop src maxAttempts 0 (src.recordsAt 0).length
        = Except.ok (0, StopReason.noGrowth) := by
      have hm : maxAttempts = 199 + 1 := rfl
      rw [hm, loadLoop_succ, h1 0, h2 0]
      simp
    rw [hstep]

/-- C7 (witness): the inert source — affordance always present, count never
growing — terminates at once through the no-growth path. -/
theorem loader_terminates_witness :
    loadAllPublications wSrcInert = Except.ok (1, 0, StopReason.noGrowth) :=
  (loader_terminates wSrcInert).2 (fun _ => rfl) (fun _ => rfl)

/-- C8: while a run is in progress, an `analyzeVenues` request is rejected
immediately with the error message `"Analysis already in progress - please
wait"`, the `success` field omitted, the request is not queued, and the
listener state — including the in-flight run's state — is left unchanged. -/
theorem reentrancy_guard {α : Type} (st : ListenerState α) (h : st.isAnalyzing = true) :
    onMessage st ("analyzeVenues") = (some busyResponse, st) ∧
    busyResponse.success = none ∧
    busyResponse.error = some ("Analysis already in progress - please wait") := by
  refine ⟨?_, rfl, rfl⟩
  simp [onMessage, h]

/-- C8 (witness): the guard at a concrete busy listener state. -/
theorem reentrancy_guard_witness :
    onMessage (⟨true, 0⟩ : ListenerState Nat) ("analyzeVenues")
      = (some busyResponse, (⟨true, 0⟩ : ListenerState Nat)) :=
  (reentrancy_guard (⟨true, 0⟩ : ListenerState Nat) rfl).1

/-- C9 (counterexample): an error raised during affordance discovery is not
caught — `findShowMoreButtonSync()` runs outside the loader's `try` block —
so it escapes `loadAllPublications` and fails the whole analysis run. -/
theorem discovery_error_fails_run :
    loadAllPublications wSrcBoom = Except.error ("boom") ∧
    analyzeAllVenues wSrcBoom true = Except.error ("boom") :=
  ⟨rfl, rfl⟩

/-- C9 (amended): as long as affordance discovery itself does not raise,
every content-source error in the loading loop (raised by invocation or by
waiting for growth) is caught inside the loader, terminates only the
loading loop, and the run proceeds to extraction and aggregation over the
records loaded so far. -/
theorem loader_errors_caught (src : PageSource)
    (hd : ∀ i, ∃ b, src.discover i = Except.ok b) :
    (∃ out, loadAllPublications src = Except.ok out) ∧
    ((src.recordsAt 0).length ≠ 0 →
      ∃ c a r, loadAllPublications src = Except.ok (c, a, r) ∧
        analyzeAllVenues src true = finishAnalysis (src.recordsAt a)) := by
  obtain ⟨out, hl⟩ := loadLoop_ok_of_discover_ok src hd maxAttempts 0 (src.recordsAt 0).length
  obtain ⟨a, r⟩ := out
  have hload : loadAllPublications src = Except.ok ((src.recordsAt a).length, a, r) := by
    unfold loadAllPublications
    rw [hl]
  constructor
  · exact ⟨_, hload⟩
  · intro hne
    refine ⟨(src.recordsAt a).length, a, r, hload, ?_⟩
    unfold analyzeAllVenues
    rw [if_neg (show ¬((!true) = true) by simp), if_neg hne]
    simp only [hload]

/-- C9 (witness): a source whose click-and-wait step raises on every
iteration still yields a successful loader result. -/
theorem loader_errors_caught_witness :
    ∃ out, loadAllPublications wSrcClickBoom = Except.ok out :=
  (loader_errors_caught wSrcClickBoom (fun _ => ⟨true, rfl⟩)).1

/-- C10: `normalize` never returns the empty string — every non-null result
has length at least 3, whether it comes from an area rule, the generic
workshop pass, a catch-all rule, or the fallback stage (which rejects
remainders shorter than three characters). -/
theorem normalize_nonnull_min_length (s v : String) (h : normalizeVenue s = some v) :
    3 ≤ v.length ∧ v ≠ "" := by
  have hlen : 3 ≤ v.length := by
    by_cases hs : s = ""
    · subst hs
      exact absurd h (by rw [show normalizeVenue "" = none from rfl]; simp)
    · rw [normalizeVenue_eq s hs] at h
      cases hm : firstMatch areaRules (isWorkshopFlag (lowerList (cleanVenueText s.data)))
          (lowerList (cleanVenueText s.data)) with
      | some u =>
        rw [hm] at h
        have h' : u = v := Option.some.inj h
        subst h'
        obtain ⟨rr, hmem, htest, hvv⟩ := firstMatch_mem hm
        have hmin := areaRules_label_min rr hmem
        rw [hvv]
        by_cases hw : isWorkshopFlag (lowerList (cleanVenueText s.data)) = true
        · rw [if_pos hw]; exact hmin.2
        · rw [if_neg hw]; exact hmin.1
      | none =>
        rw [hm] at h
        have h2 : (if isWorkshopFlag (lowerList (cleanVenueText s.data)) then
            some (workshopSection (lowerList (cleanVenueText s.data)))
          else
            match firstMatch catchAllRules (isWorkshopFlag (lowerList (cleanVenueText s.data)))
                (lowerList (cleanVenueText s.data)) with
            | some u => some u
            | none => (fallbackProcess (cleanVenueText s.data)).map fun cs => String.mk cs)
            = some v := h
        by_cases hw : isWorkshopFlag (lowerList (cleanVenueText s.data)) = true
        · rw [if_pos hw] at h2
          have h' : workshopSection (lowerList (cleanVenueText s.data)) = v :=
            Option.some.inj h2
          rw [← h']
          exact workshopSection_min _
        · rw [if_neg hw] at h2
          cases hc : firstMatch catchAllRules (isWorkshopFlag (lowerList (cleanVenueText s.data)))
              (lowerList (cleanVenueText s.data)) with
          | some u =>
            rw [hc] at h2
            have h' : u = v := Option.some.inj h2
            subst h'
            obtain ⟨rr, hmem, htest, hvv⟩ := firstMatch_mem hc
            have hmin := catchAllRules_label_min rr hmem
            rw [hvv]
            by_cases hw2 : isWorkshopFlag (lowerList (cleanVenueText s.data)) = true
            · rw [if_pos hw2]; exact hmin.2
            · rw [if_neg hw2]; exact hmin.1
          | none =>
            rw [hc] at h2
            have h3 : (fallbackProcess (cleanVenueText s.data)).map (fun cs => String.mk cs)
                = some v := h2
            rw [Option.map_eq_some'] at h3
            obtain ⟨cs, hcs, hv⟩ := h3
            rw [← hv]
            exact fallbackProcess_min hcs
  refine ⟨hlen, fun he => ?_⟩
  subst he
  exact absurd hlen (by decide)

/-- C10 (witness): the bound at a concrete classified input. -/
theorem normalize_nonnull_min_length_witness :
    3 ≤ ("CVPR" : String).length ∧ ("CVPR" : String) ≠ "" :=
  normalize_nonnull_min_length ("CVPR") ("CVPR") (by decide)

theorem firstMatch_cons_neg {r : VRule} {rs : List VRule} {w : Bool} {l : List Char}
    (h : r.test l = false) :
    firstMatch (r :: rs) w l = firstMatch rs w l := by
  simp [firstMatch, h]

theorem normalizeVenue_of_firstMatch (s : String) (hs : s ≠ "") {u : String}
    (h : firstMatch areaRules (isWorkshopFlag (lowerList (cleanVenueText s.data)))
        (lowerList (cleanVenueText s.data)) = some u) :
    normalizeVenue s = some u := by
  rw [normalizeVenue_eq s hs, h]

/-- C4 (counterexample): a string whose cleaned form contains `naacl` (and
hence also matches the ACL-shaped `acl` substring) is not necessarily
classified as NAACL — an earlier rule such as CVPR can win first. -/
theorem naacl_cvpr_counterexample :
    hasS (lowerList (cleanVenueText (String.data ("NAACL meets CVPR")))) ("naacl") = true ∧
    normalizeVenue ("NAACL meets CVPR") = some ("CVPR") ∧
    (some ("CVPR") : Option String) ≠ some ("NAACL") ∧
    (some ("CVPR") : Option String) ≠ some ("NAACL Workshop") := by
  decide

/-- C4 (amended): a string whose cleaned lower-cased form contains `naacl`
is never classified as `ACL` or `ACL Workshop` — the ACL rule explicitly
excludes it and the NAACL rule would match before any later stage; it is
classified as `NAACL` (or `NAACL Workshop`) whenever none of the rules
preceding the ACL rule matches first. -/
theorem naacl_never_acl (s : String)
    (h : hasS (lowerList (cleanVenueText s.data)) ("naacl") = true) :
    (normalizeVenue s ≠ some ("ACL") ∧ normalizeVenue s ≠ some ("ACL Workshop")) ∧
    ((preACLRules.all fun r => !(r.test (lowerList (cleanVenueText s.data)))) = true →
      normalizeVenue s =
        some (if isWorkshopFlag (lowerList (cleanVenueText s.data)) then "NAACL Workshop"
          else "NAACL")) := by
  by_cases hs : s = ""
  · subst hs; exact absurd h (by decide)
  · have hnaacl : rNAACL.test (lowerList (cleanVenueText s.data)) = true := by
      simp [rNAACL, h]
    have hacl : rACL.test (lowerList (cleanVenueText s.data)) = false := by
      simp [rACL, h]
    cases hpre : firstMatch preACLRules (isWorkshopFlag (lowerList (cleanVenueText s.data)))
        (lowerList (cleanVenueText s.data)) with
    | some u =>
      have harea : firstMatch areaRules (isWorkshopFlag (lowerList (cleanVenueText s.data)))
          (lowerList (cleanVenueText s.data)) = some u := by
        have he : areaRules = preACLRules ++ rACL :: rNAACL :: postNAACLRules := rfl
        rw [he]
        exact firstMatch_append_some hpre
      have hnv := normalizeVenue_of_firstMatch s hs harea
      obtain ⟨rr, hmem, htest, hvv⟩ := firstMatch_mem hpre
      have hno := preACL_no_acl_labels rr hmem
      have hu : u ≠ "ACL" ∧ u ≠ "ACL Workshop" := by
        by_cases hx : isWorkshopFlag (lowerList (cleanVenueText s.data)) = true
        · rw [hvv, if_pos hx]; exact ⟨hno.1.2, hno.2.2⟩
        · rw [hvv, if_neg hx]; exact ⟨hno.1.1, hno.2.1⟩
      constructor
      · constructor
        · rw [hnv]; intro hbad; exact hu.1 (Option.some.inj hbad)
        · rw [hnv]; intro hbad; exact hu.2 (Option.some.inj hbad)
      · intro hall
        have hnone := @firstMatch_none_of_all preACLRules
          (isWorkshopFlag (lowerList (cleanVenueText s.data)))
          (lowerList (cleanVenueText s.data))
          (fun r hr => by
            have hb := List.all_eq_true.mp hall r hr
            simpa using hb)
        rw [hpre] at hnone
        exact absurd hnone (by simp)
    | none =>
      have harea : firstMatch areaRules (isWorkshopFlag (lowerList (cleanVenueText s.data)))
          (lowerList (cleanVenueText s.data))
          = some (if isWorkshopFlag (lowerList (cleanVenueText s.data)) then "NAACL Workshop"
              else "NAACL") := by
        have he : areaRules = preACLRules ++ rACL :: rNAACL :: postNAACLRules := rfl
        rw [he, firstMatch_append_none hpre, firstMatch_cons_neg hacl,
          firstMatch_cons_pos hnaacl]
        rfl
      have hnv := normalizeVenue_of_firstMatch s hs harea
      constructor
      · constructor
        · rw [hnv]
          by_cases hx : isWorkshopFlag (lowerList (cleanVenueText s.data)) = true
          · rw [if_pos hx]; decide
          · rw [if_neg hx]; decide
        · rw [hnv]
          by_cases hx : isWorkshopFlag (lowerList (cleanVenueText s.data)) = true
          · rw [if_pos hx]; decide
          · rw [if_neg hx]; decide
      · intro _; exact hnv

/-- C4 (witness): `"Findings of NAACL"` contains `naacl`, no pre-ACL rule
matches it, and it is classified as `NAACL`. -/
theorem naacl_never_acl_witness :
    normalizeVenue ("Findings of NAACL")
      = some (if isWorkshopFlag (lowerList (cleanVenueText (String.data ("Findings of NAACL"))))
          then "NAACL Workshop" else "NAACL") :=
  (naacl_never_acl ("Findings of NAACL") (by decide)).2 (by decide)

/-- C5 (counterexample): a string matching the CVPR pattern without the
word `workshop` can still be tagged as a workshop: the flag also fires on
a `ws` token followed by a word boundary. -/
theorem cvpr_ws_token_counterexample :
    rCVPR.test (lowerList (cleanVenueText (String.data ("CVPR ws")))) = true ∧
    hasS (lowerList (cleanVenueText (String.data ("CVPR ws")))) ("workshop") = false ∧
    normalizeVenue ("CVPR ws") = some ("CVPR Workshop") := by
  decide

/-- C5 (amended): for every string matching the CVPR pattern (the first
rule of the table), `normalize` returns `"CVPR Workshop"` exactly when the
derived workshop flag is set — the flag being presence of `workshop` or of
`ws` at a word boundary, case-insensitively — and `"CVPR"` otherwise;
containing `workshop` implies the flag is set. -/
theorem cvpr_workshop_flag (s : String)
    (h : rCVPR.test (lowerList (cleanVenueText s.data)) = true) :
    normalizeVenue s =
      some (if isWorkshopFlag (lowerList (cleanVenueText s.data)) then "CVPR Workshop"
        else "CVPR") ∧
    (hasS (lowerList (cleanVenueText s.data)) ("workshop") = true →
      isWorkshopFlag (lowerList (cleanVenueText s.data)) = true) := by
  constructor
  · by_cases hs : s = ""
    · subst hs; exact absurd h (by decide)
    · have he : areaRules = rCVPR :: ([rICCV, rECCV, rWACV, rBMVC, rACCV, rNeurIPS, rICML,
        rICLR, rAISTATS, rAAAI, rIJCAI, rUAI] ++ rACL :: rNAACL :: postNAACLRules) := rfl
      have harea : firstMatch areaRules (isWorkshopFlag (lowerList (cleanVenueText s.data)))
          (lowerList (cleanVenueText s.data))
          = some (if isWorkshopFlag (lowerList (cleanVenueText s.data)) then "CVPR Workshop"
              else "CVPR") := by
        rw [he, firstMatch_cons_pos h]
        rfl
      exact normalizeVenue_of_firstMatch s hs harea
  · intro hw
    simp [isWorkshopFlag, hw]

/-- C5 (witness): `"CVPR"` matches the CVPR pattern and is classified
through the flag (which is unset here). -/
theorem cvpr_workshop_flag_witness :
    normalizeVenue ("CVPR")
      = some (if isWorkshopFlag (lowerList (cleanVenueText (String.data ("CVPR"))))
          then "CVPR Workshop" else "CVPR") :=
  (cvpr_workshop_flag ("CVPR") (by decide)).1

/-- C6: the fallback floor — `normalize("The")` and `normalize("of")` are
null; any string reaching the fallback stage whose simplified remainder is
shorter than three characters or is a stop word normalizes to null; and
`normalize("Proceedings of the Workshop on Robot Learning, 2021")` is the
non-null workshop-tagged fallback `"Workshop"`, distinct from every
recognized-acronym workshop label. -/
theorem fallback_floor :
    normalizeVenue ("The") = none ∧
    normalizeVenue ("of") = none ∧
    (∀ s : String, s ≠ "" →
      firstMatch areaRules (isWorkshopFlag (lowerList (cleanVenueText s.data)))
        (lowerList (cleanVenueText s.data)) = none →
      isWorkshopFlag (lowerList (cleanVenueText s.data)) = false →
      firstMatch catchAllRules (isWorkshopFlag (lowerList (cleanVenueText s.data)))
        (lowerList (cleanVenueText s.data)) = none →
      ((fallbackSimplified (cleanVenueText s.data)).length < 3 ∨
        isStopWord (lowerList (fallbackSimplified (cleanVenueText s.data))) = true) →
      normalizeVenue s = none) ∧
    (normalizeVenue ("Proceedings of the Workshop on Robot Learning, 2021")
        = some ("Workshop") ∧
      ("Workshop" : String) ∉ recognizedAcronymWorkshopLabels) := by
  refine ⟨by decide, by decide, ?_, by decide, by decide⟩
  intro s hs h1 h2 h3 h4
  rw [normalizeVenue_eq s hs, h1, h3, h2]
  show (fallbackProcess (cleanVenueText s.data)).map (fun cs => String.mk cs) = none
  rw [Option.map_eq_none']
  rcases h4 with h4 | h4
  · simp [fallbackProcess, h4]
  · by_cases hlt : (fallbackSimplified (cleanVenueText s.data)).length < 3
    · simp [fallbackProcess, hlt]
    · simp [fallbackProcess, hlt, h4]

/-- C6 (witness): `"ab"` reaches the fallback stage with a two-character
remainder and normalizes to null. -/
theorem fallback_floor_witness :
    normalizeVenue ("ab") = none :=
  fallback_floor.2.2.1 ("ab") (by decide) (by decide) (by decide) (by decide)
    (Or.inl (by decide))
